import Mathlib

/-!
Verification development for the echoline content-publishing application.

The definitions below are shallow embeddings of the Python source:
 - `app/models/chapter.py`, `app/routers/chapters.py` (chapter ordering,
   prev/next navigation, the read gate),
 - `app/routers/auth.py` (safe-redirect validation, forgot / reset password),
 - `app/models/password_reset.py` (token predicates),
 - `app/utils/authz.py` (admin authorization gate),
 - `app/routers/telemetry.py` (read-event marking).

Machine integers are modelled as `Nat`/`Int`; timestamps as `Nat` (seconds);
SQL tables as Lean lists of records; the session as explicit `Option` values.
-/

/- ============================================================
   Chapter model (app/models/chapter.py)

   Asset/metadata columns (`subtitle`, `hero_key`, `reel_url`, `teaser`,
   `ambient_url`, the JSON metadata and `created_at`) are omitted: no
   verified operation reads them.  `id` is the integer primary key,
   `slug` is unique, `display_order` is a nullable integer.
   ============================================================ -/

structure Chapter where
  id : Nat
  slug : String
  title : String
  content : String
  display_order : Option Int
  deriving Repr, DecidableEq

/- app/routers/chapters.py, `_ord_key`:
   `func.coalesce(Chapter.display_order, 1_000_000_000)` -/
def ord_key (c : Chapter) : Int :=
  match c.display_order with
  | some d => d
  | none => 1000000000

/- The total preorder realised by `ORDER BY asc(_ord_key()), asc(Chapter.id)`. -/
def chLe (a b : Chapter) : Prop :=
  ord_key a < ord_key b ∨ (ord_key a = ord_key b ∧ a.id ≤ b.id)

/- The reversed comparator realised by `ORDER BY desc(_ord_key()), desc(Chapter.id)`. -/
def chGe (a b : Chapter) : Prop := chLe b a

/- The strict version of `chLe`; two rows with distinct ids compare strictly. -/
def chLt (a b : Chapter) : Prop :=
  ord_key a < ord_key b ∨ (ord_key a = ord_key b ∧ a.id < b.id)

instance : DecidableRel chLe := fun a b => by unfold chLe; exact inferInstance
instance : DecidableRel chGe := fun a b => by unfold chGe chLe; exact inferInstance
instance : DecidableRel chLt := fun a b => by unfold chLt; exact inferInstance

instance : IsTotal Chapter chLe where
  total a b := by
    unfold chLe
    rcases lt_trichotomy (ord_key a) (ord_key b) with h | h | h
    · exact Or.inl (Or.inl h)
    · rcases Nat.le_total a.id b.id with h' | h'
      · exact Or.inl (Or.inr ⟨h, h'⟩)
      · exact Or.inr (Or.inr ⟨h.symm, h'⟩)
    · exact Or.inr (Or.inl h)

instance : IsTrans Chapter chLe where
  trans a b c hab hbc := by
    unfold chLe at *
    rcases hab with h1 | ⟨h1, h1'⟩ <;> rcases hbc with h2 | ⟨h2, h2'⟩
    · exact Or.inl (lt_trans h1 h2)
    · exact Or.inl (h2 ▸ h1)
    · exact Or.inl (h1 ▸ h2)
    · exact Or.inr ⟨h1.trans h2, le_trans h1' h2'⟩

instance : IsTotal Chapter chGe where
  total a b := (IsTotal.total (r := chLe) a b).symm

instance : IsTrans Chapter chGe where
  trans a b c hab hbc := IsTrans.trans (r := chLe) c b a hbc hab

/- app/routers/chapters.py, `list_chapters`:
   `db.query(Chapter).order_by(asc(_ord_key()), asc(Chapter.id)).all()` -/
def list_chapters (db : List Chapter) : List Chapter :=
  db.insertionSort chLe

/- The read gate in `show_chapter`:
   `(chapter.display_order is not None) and (chapter.display_order > gate_threshold)` -/
def gate_threshold : Int := 5

def gated (c : Chapter) : Bool :=
  match c.display_order with
  | some d => decide (gate_threshold < d)
  | none => false

/- `request.state.user` as attached by `UserAttachMiddleware` in app/main.py:
   `{'id': row.id, 'email': row.email}` for a logged-in user, else `None`. -/
structure SessionUser where
  id : Nat
  email : String
  deriving Repr, DecidableEq

/- Filter of the `prev` query in `show_chapter`:
   `or_(_ord_key() < cur_key, and_(_ord_key() == cur_key, Chapter.id < chapter.id))` -/
def prevPred (k : Int) (cid : Nat) (x : Chapter) : Bool :=
  decide (ord_key x < k) || (decide (ord_key x = k) && decide (x.id < cid))

/- Filter of the `next` query in `show_chapter`:
   `or_(_ord_key() > cur_key, and_(_ord_key() == cur_key, Chapter.id > chapter.id))` -/
def nextPred (k : Int) (cid : Nat) (x : Chapter) : Bool :=
  decide (k < ord_key x) || (decide (ord_key x = k) && decide (cid < x.id))

/- `cur_key`: `db.query(func.coalesce(...)).filter(Chapter.id == chapter.id).scalar()`.
   An empty result set makes `scalar()` return `None` (`SQL NULL`), and a
   NULL comparand filters out every row, so both queries return no row. -/
def cur_key_of (db : List Chapter) (c : Chapter) : Option Int :=
  (db.find? fun x => x.id == c.id).map ord_key

/- `prev`: filtered query ordered by `desc(_ord_key()), desc(Chapter.id)`, `.first()`. -/
def prev_chapter (db : List Chapter) (c : Chapter) : Option Chapter :=
  match cur_key_of db c with
  | none => none
  | some k => ((db.filter (prevPred k c.id)).insertionSort chGe).head?

/- `next`: filtered query ordered by `asc(_ord_key()), asc(Chapter.id)`, `.first()`. -/
def next_chapter (db : List Chapter) (c : Chapter) : Option Chapter :=
  match cur_key_of db c with
  | none => none
  | some k => ((db.filter (nextPred k c.id)).insertionSort chLe).head?

/- Result of `show_chapter`: a 404 page, the 401 raised past the gate, or the
   rendered detail page with its prev/next navigation chapters. -/
inductive ShowChapterResult where
  | notFound
  | loginRequired
  | page (chapter : Chapter) (prev : Option Chapter) (next : Option Chapter)
  deriving Repr, DecidableEq

/- app/routers/chapters.py, `show_chapter` -/
def show_chapter (db : List Chapter) (slug : String) (user : Option SessionUser) :
    ShowChapterResult :=
  match db.find? (fun c => c.slug == slug) with
  | none => .notFound
  | some chapter =>
    if gated chapter && user.isNone then .loginRequired
    else .page chapter (prev_chapter db chapter) (next_chapter db chapter)

/- ============================================================
   Safe-redirect validation (app/routers/auth.py, `_is_safe_next`
   and `_redirect_to_next`), with the scheme/netloc splitting of
   CPython `urllib.parse.urlsplit`.
   ============================================================ -/

/- CPython removes ASCII tab, CR and LF from the url before parsing. -/
def sanitize_url (s : String) : String :=
  String.mk (s.toList.filter fun c => !(c == '\t' || c == '\r' || c == '\n'))

def scheme_chars : List Char :=
  "abcdefghijklmnopqrstuvwxyzABCDEFGHIJKLMNOPQRSTUVWXYZ0123456789+-.".toList

/- Scheme extraction: the text before the first `:` is a scheme when the
   colon is not first, the first character is an ASCII letter, and every
   character before the colon is a scheme character; the scheme is
   lowercased and the remainder follows the colon. -/
def url_scheme_split (url : String) : String × String :=
  let cs := url.toList
  match cs.findIdx? (· == ':') with
  | none => ("", url)
  | some i =>
    if 0 < i && (cs.headD ' ').isAlpha
        && (cs.take i).all (fun c => scheme_chars.contains c) then
      (String.mk ((cs.take i).map Char.toLower), String.mk (cs.drop (i + 1)))
    else ("", url)

/- Netloc extraction: after a leading `//`, up to the first `/`, `?` or `#`. -/
def url_netloc (rest : String) : String :=
  let cs := rest.toList
  if cs.take 2 == ['/', '/'] then
    String.mk ((cs.drop 2).takeWhile fun c => !(c == '/' || c == '?' || c == '#'))
  else ""

/- The `(parts.scheme, parts.netloc)` pair of `urlparse(next_url)`. -/
def urlparse_scheme_netloc (url : String) : String × String :=
  let u := sanitize_url url
  let p := url_scheme_split u
  (p.1, url_netloc p.2)

/- Python `next_url.startswith("/")`. -/
def starts_with_slash (s : String) : Bool :=
  match s.toList with
  | [] => false
  | c :: _ => c == '/'

/- app/routers/auth.py, `_is_safe_next` (the argument is `str | None`):
   `"" `/`None` are safe; otherwise require no scheme, no netloc, and a
   leading `/`. -/
def _is_safe_next (next_url : Option String) : Bool :=
  match next_url with
  | none => true
  | some s =>
    if s == "" then true
    else
      let p := urlparse_scheme_netloc s
      p.1 == "" && p.2 == "" && starts_with_slash s

/- A 303 redirect response carrying its Location. -/
structure Redirect where
  status : Nat
  location : String
  deriving Repr, DecidableEq

/- app/routers/auth.py, `_redirect_to_next` (default fallback `/account`). -/
def _redirect_to_next (next_url : Option String) (fallback : String) : Redirect :=
  match next_url with
  | none => ⟨303, fallback⟩
  | some s =>
    if s ≠ "" && _is_safe_next (some s) then ⟨303, s⟩ else ⟨303, fallback⟩

/- ============================================================
   Admin authorization gate (app/utils/authz.py) and the admin
   content-management routes (app/routers/admin/router.py).
   ============================================================ -/

/- Python whitespace as stripped by `str.strip()` (ASCII subset). -/
def is_space_char (c : Char) : Bool :=
  c == ' ' || c == '\t' || c == '\n' || c == '\r' || c == '\x0b' || c == '\x0c'

/- Python `.strip().lower()` on an email string (ASCII case mapping). -/
def normalize_email (e : String) : String :=
  String.mk
    ((((e.toList.dropWhile is_space_char).reverse.dropWhile is_space_char).reverse).map
      Char.toLower)

def default_admin_email : String := "grayfenrir@protonmail.com"

/- `ADMIN_EMAIL = (os.getenv("ADMIN_EMAIL") or "grayfenrir@protonmail.com").strip().lower()` -/
def admin_email_config (env : Option String) : String :=
  normalize_email
    (match env with
     | some s => if s == "" then default_admin_email else s
     | none => default_admin_email)

def hex_digits : List Char := "0123456789ABCDEF".toList

def quote_byte (b : Nat) : String :=
  String.mk ['%', hex_digits.getD (b / 16 % 16) '0', hex_digits.getD (b % 16) '0']

/- Characters `urllib.parse.quote` leaves unescaped with the default
   `safe='/'`: ASCII letters, digits, `_.-~` and `/`. -/
def quote_safe_char (c : Char) : Bool :=
  c.isAlphanum || c == '_' || c == '.' || c == '-' || c == '~' || c == '/'

/- UTF-8 bytes of one code point, as used by `quote` on non-ASCII input. -/
def utf8_bytes (n : Nat) : List Nat :=
  if n < 128 then [n]
  else if n < 2048 then [192 + n / 64, 128 + n % 64]
  else if n < 65536 then [224 + n / 4096, 128 + n / 64 % 64, 128 + n % 64]
  else [240 + n / 262144, 128 + n / 4096 % 64, 128 + n / 64 % 64, 128 + n % 64]

/- `urllib.parse.quote(s)` (default `safe='/'`). -/
def urlquote (s : String) : String :=
  s.toList.foldl
    (fun acc c =>
      if c.toNat < 128 && quote_safe_char c then acc.push c
      else acc ++ String.join ((utf8_bytes c.toNat).map quote_byte))
    ""

/- Outcome of `require_admin`: a 307 redirect to the login page with a
   `next` parameter, a 403 Forbidden, or falling through to the handler. -/
inductive AdminGate where
  | redirectLogin (location : String)
  | forbidden
  | allow
  deriving Repr, DecidableEq

/- app/utils/authz.py, `require_admin`.  `session_user` models
   `request.session.get("user")`; `path` models `request.url.path`. -/
def require_admin (adminEmail : String) (session_user : Option SessionUser)
    (path : String) : AdminGate :=
  match session_user with
  | none =>
    let next_path := if path == "" then "/" else path
    .redirectLogin ("/auth/login?next=" ++ urlquote next_path)
  | some u =>
    if normalize_email u.email ≠ adminEmail then .forbidden else .allow

/- Result of an admin route: the gate outcome or the handler's result. -/
inductive AdminRouteResult (α : Type) where
  | redirectLogin (location : String)
  | forbidden
  | ok (a : α)
  deriving Repr, DecidableEq

/-- Modelled from the spec: the package initializer of `app.routers.admin`
(the module imported by `app/main.py` to mount `chapter_create` and
`chapter_update`) is not present under `src/`; per the spec's admin-check
design, every admin content-management route runs `require_admin` on the
request before invoking its handler. -/
def admin_protected {α : Type} (adminEmail : String)
    (session_user : Option SessionUser) (path : String) (handler : α) :
    AdminRouteResult α :=
  match require_admin adminEmail session_user path with
  | .redirectLogin loc => .redirectLogin loc
  | .forbidden => .forbidden
  | .allow => .ok handler

/- `POST /admin/chapters/create` (app/routers/admin/router.py,
   `chapter_create`), abstracted over the handler's rendering result. -/
def chapter_create_route {α : Type} (adminEmail : String)
    (session_user : Option SessionUser) (handler : α) : AdminRouteResult α :=
  admin_protected adminEmail session_user "/admin/chapters/create" handler

/- `POST /admin/chapters/{chapter_id}/update` (app/routers/admin/router.py,
   `chapter_update`), abstracted over the handler's rendering result. -/
def chapter_update_route {α : Type} (adminEmail : String)
    (session_user : Option SessionUser) (chapter_id : Nat) (handler : α) :
    AdminRouteResult α :=
  admin_protected adminEmail session_user
    ("/admin/chapters/" ++ toString chapter_id ++ "/update") handler

/- ============================================================
   Password-reset lifecycle (app/routers/auth.py `forgot_submit`,
   `reset_submit`; app/models/password_reset.py).
   ============================================================ -/

/- app/models/user.py: integer primary key, unique email, password hash.
   `created_at` is omitted: no verified operation reads it. -/
structure UserRec where
  id : Nat
  email : String
  password_hash : String
  deriving Repr, DecidableEq

/- app/models/password_reset.py.  Timestamps are `Nat` seconds;
   `expires_at` and `used_at` are nullable columns.  `ip_address` and
   `user_agent` are omitted (never set or read by the routes).  The row id
   is omitted: rows are addressed through the unique `token` column. -/
structure PRec where
  user_id : Nat
  token : String
  created_at : Nat
  expires_at : Option Nat
  used_at : Option Nat
  deriving Repr, DecidableEq

/- PasswordReset.is_used -/
def is_used (r : PRec) : Bool := r.used_at.isSome

/- PasswordReset.is_expired: a null `expires_at` never expires; otherwise
   expired exactly when the probe time is at or past `expires_at`. -/
def is_expired (r : PRec) (at_time : Nat) : Bool :=
  match r.expires_at with
  | none => false
  | some e => decide (e ≤ at_time)

/- PasswordReset.can_redeem: `not is_used() and not is_expired()`. -/
def can_redeem (r : PRec) (at_time : Nat) : Bool :=
  !is_used r && !is_expired r at_time

/-- Modelled from the spec: `app/utils/security.py` (`hash_password`) is not
present under `src/`; the spec only requires that on redemption the user's
credential is set to a value derived from the new password. -/
def hash_password (p : String) : String := "pbkdf2$" ++ p

/- The two mutable tables touched by the reset flow. -/
structure ResetState where
  users : List UserRec
  resets : List PRec
  deriving Repr, DecidableEq

/- Mutating the single ORM row fetched by a `.first()` query: update the
   first list element satisfying `p`.  (The queried columns are unique /
   primary keys, so at most one row matches in a well-formed database.) -/
def update_first {α : Type} (p : α → Bool) (f : α → α) : List α → List α
  | [] => []
  | a :: t => if p a then f a :: t else a :: update_first p f t

/- `forgot_submit` either renders the uniform "check your inbox" message
   (whether or not the email matched a user), or hits the unique-token
   constraint on insert (an uncaught IntegrityError, a 500). -/
inductive ForgotOutcome where
  | uniformMessage
  | serverError
  deriving Repr, DecidableEq

/- app/routers/auth.py, `forgot_submit`.  The freshly generated
   `secrets.token_urlsafe(32)` value enters as the `tok` parameter; `now`
   is `_now()`.  Expiry is `now + timedelta(hours=2)` = 7200 seconds. -/
def forgot_submit (st : ResetState) (email tok : String) (now : Nat) :
    ForgotOutcome × ResetState :=
  let email_norm := normalize_email email
  match st.users.find? (fun u => u.email == email_norm) with
  | none => (.uniformMessage, st)
  | some user =>
    -- `db.query(PasswordReset).filter(PasswordReset.user_id == user.id).delete()`
    let remaining := st.resets.filter (fun r => !(r.user_id == user.id))
    -- inserting a duplicate token violates the unique constraint on commit
    if remaining.any (fun r => r.token == tok) then (.serverError, st)
    else
      (.uniformMessage,
       { st with resets := remaining ++ [⟨user.id, tok, now, some (now + 7200), none⟩] })

/- Outcomes of `reset_submit`: the four 400-form re-renders, the success
   redirect to `/auth/login?reset=1`, and the uncaught TypeError a NULL
   `expires_at` would raise at `pr.expires_at < _now()`. -/
inductive ResetOutcome where
  | missingToken
  | invalidOrExpired
  | passwordTooShort
  | passwordMismatch
  | accountNotFound
  | serverError
  | success
  deriving Repr, DecidableEq

/- app/routers/auth.py, `reset_submit`. -/
def reset_submit (st : ResetState) (token pw pwc : String) (now : Nat) :
    ResetOutcome × ResetState :=
  if token == "" then (.missingToken, st)
  else
    -- `.filter(PasswordReset.token == token).filter(PasswordReset.used_at.is_(None)).first()`
    match st.resets.find? (fun r => r.token == token && r.used_at == none) with
    | none => (.invalidOrExpired, st)
    | some pr =>
      match pr.expires_at with
      | none => (.serverError, st)
      | some exp =>
        if exp < now then (.invalidOrExpired, st)
        else if pw == "" || pw.length < 8 then (.passwordTooShort, st)
        else if pw ≠ pwc then (.passwordMismatch, st)
        else
          match st.users.find? (fun u => u.id == pr.user_id) with
          | none => (.accountNotFound, st)
          | some user =>
            -- `user.password_hash = hash_password(password); pr.used_at = _now()`
            let users' := update_first (fun u => u.id == pr.user_id)
              (fun u => { u with password_hash := hash_password pw }) st.users
            let marked := update_first (fun r => r.token == token && r.used_at == none)
              (fun r => { r with used_at := some now }) st.resets
            -- delete the user's still-unused tokens
            let resets' := marked.filter
              (fun r => !(r.user_id == user.id && r.used_at == none))
            (.success, ⟨users', resets'⟩)

/- One client-driven step of the reset lifecycle. -/
inductive ResetOp where
  | forgot (email tok : String) (now : Nat)
  | reset (token pw pwc : String) (now : Nat)
  deriving Repr, DecidableEq

def apply_reset_op (st : ResetState) : ResetOp → ResetState
  | .forgot email tok now => (forgot_submit st email tok now).2
  | .reset token pw pwc now => (reset_submit st token pw pwc now).2

def run_reset_ops (st : ResetState) (ops : List ResetOp) : ResetState :=
  ops.foldl apply_reset_op st

/- Unused (outstanding) reset rows of one user. -/
def unused_for (uid : Nat) (r : PRec) : Bool :=
  r.user_id == uid && r.used_at == none

/- Live = unused and unexpired, per `can_redeem`. -/
def live_for (uid : Nat) (now : Nat) (r : PRec) : Bool :=
  r.user_id == uid && can_redeem r now

/- The per-user invariant: at most one outstanding token per user. -/
def ResetInv (st : ResetState) : Prop :=
  ∀ uid : Nat, st.resets.countP (unused_for uid) ≤ 1

instance : DecidablePred ResetInv := fun st => by
  unfold ResetInv
  have : (∀ uid ∈ st.resets.map (·.user_id), st.resets.countP (unused_for uid) ≤ 1) ↔
      ∀ uid : Nat, st.resets.countP (unused_for uid) ≤ 1 := by
    constructor
    · intro h uid
      by_cases hmem : uid ∈ st.resets.map (·.user_id)
      · exact h uid hmem
      · have : st.resets.countP (unused_for uid) = 0 := by
          rw [List.countP_eq_zero]
          intro r hr hcount
          exact hmem (List.mem_map.mpr ⟨r, hr, by
            simpa [unused_for] using (by
              simp only [unused_for, Bool.and_eq_true, beq_iff_eq] at hcount
              exact hcount.1)⟩)
        omega
    · intro h uid _
      exact h uid
  exact decidable_of_iff _ this

/- ============================================================
   Read-event telemetry (app/routers/telemetry.py, `mark_read`;
   app/models/read_event.py).
   ============================================================ -/

/- app/models/read_event.py: unique on (user_id, chapter_id);
   the surrogate id and `created_at` are omitted. -/
structure ReadEvent where
  user_id : Nat
  chapter_id : Nat
  deriving Repr, DecidableEq

/- The JSON response of `mark_read`: HTTP status, the `ok` field, and
   whether the body carried `"skip": "anon"`. -/
structure MarkReadResponse where
  status : Nat
  ok : Bool
  skip_anon : Bool
  deriving Repr, DecidableEq

/- app/routers/telemetry.py, `mark_read`.  `session_user_id` models
   `request.session.get("user_id")`; `pg_insert_raises` models the
   environment raising in the native-upsert block (dialect/import
   failure), which the code catches before falling back to a plain
   insert guarded against IntegrityError (the uniqueness violation). -/
def mark_read (session_user_id : Option Nat) (chapter_id : Nat)
    (events : List ReadEvent) (pg_insert_raises : Bool) :
    MarkReadResponse × List ReadEvent :=
  match session_user_id with
  | none => (⟨200, true, true⟩, events)
  | some uid =>
    let dup := events.any (fun e => e.user_id == uid && e.chapter_id == chapter_id)
    if !pg_insert_raises then
      -- `ON CONFLICT (user_id, chapter_id) DO NOTHING`
      (⟨200, true, false⟩, if dup then events else events ++ [⟨uid, chapter_id⟩])
    else
      -- rollback, then plain insert; a duplicate raises IntegrityError,
      -- which is caught and rolled back
      (⟨200, true, false⟩, if dup then events else events ++ [⟨uid, chapter_id⟩])

/- ============================================================
   Spec-level predicates and concrete fixtures used by witnesses.
   ============================================================ -/

/- The listing-order property claimed by the spec: every keyed chapter
   precedes every unkeyed one; within each group ascending key, then
   ascending identifier. -/
def claimOrder (a b : Chapter) : Prop :=
  match a.display_order, b.display_order with
  | some da, some db' => da < db' ∨ (da = db' ∧ a.id < b.id)
  | some _, none => True
  | none, some _ => False
  | none, none => a.id < b.id

instance : DecidableRel claimOrder := fun a b =>
  match ha : a.display_order, hb : b.display_order with
  | some da, some db' =>
      decidable_of_iff (da < db' ∨ (da = db' ∧ a.id < b.id))
        (by unfold claimOrder; rw [ha, hb])
  | some _, none => decidable_of_iff True (by unfold claimOrder; rw [ha, hb])
  | none, some _ => decidable_of_iff False (by unfold claimOrder; rw [ha, hb])
  | none, none => decidable_of_iff (a.id < b.id) (by unfold claimOrder; rw [ha, hb])

def chA : Chapter := ⟨1, "chapter-one", "One", "body1", some 1⟩
def chB : Chapter := ⟨2, "chapter-two", "Two", "body2", none⟩
def chC : Chapter := ⟨3, "chapter-three", "Three", "body3", some 7⟩
def chBig : Chapter := ⟨4, "chapter-big", "Big", "body4", some 1000000000⟩

def stResetA : ResetState :=
  ⟨[⟨1, "a@b.c", "h0"⟩], [⟨1, "tokenA", 100, some 7300, none⟩]⟩

/- ============================================================
   Theorems
   ============================================================ -/

/-- C9: every invocation of the mark-chapter-read endpoint returns HTTP 200
with `ok: true`, whether the session is anonymous, the native upsert path
raises, or the insert hits an existing (user, chapter) record; no storage
failure is surfaced to the caller. -/
theorem mark_read_always_ok (session_user_id : Option Nat) (chapter_id : Nat)
    (events : List ReadEvent) (pg_insert_raises : Bool) :
    (mark_read session_user_id chapter_id events pg_insert_raises).1.status = 200 ∧
    (mark_read session_user_id chapter_id events pg_insert_raises).1.ok = true := by
  cases session_user_id with
  | none => exact ⟨rfl, rfl⟩
  | some uid => cases pg_insert_raises <;> exact ⟨rfl, rfl⟩

/-- C10: an invocation of the mark-chapter-read endpoint by an anonymous
session returns the success response (200, ok true, skip "anon") and leaves
the stored read events unchanged. -/
theorem mark_read_anon_no_write (chapter_id : Nat) (events : List ReadEvent)
    (pg_insert_raises : Bool) :
    mark_read none chapter_id events pg_insert_raises = (⟨200, true, true⟩, events) :=
  rfl

/-- C2 counterexample: a chapter with a null `display_order` has ordering key
1000000000 > 5, yet the chapter-detail operation renders it for an
unauthenticated session instead of failing with 401 — the gate tests
`display_order` itself, not the coalesced ordering key. -/
theorem chapter_gate_claim_cex :
    gate_threshold < ord_key chB ∧
    show_chapter [chB] "chapter-two" none = .page chB none none := by
  decide

/-- C2 amended: the read gate fires exactly when the chapter's
`display_order` is non-null and exceeds 5 and the session is
unauthenticated; a chapter with null or small `display_order` renders
without authentication, and an authenticated session always renders. -/
theorem chapter_gate_display_order_only (db : List Chapter) (slug : String)
    (c : Chapter) (u : SessionUser)
    (hfind : db.find? (fun x => x.slug == slug) = some c) :
    (show_chapter db slug none = .loginRequired ↔
      ∃ d, c.display_order = some d ∧ gate_threshold < d) ∧
    (c.display_order = none ∨ (∃ d, c.display_order = some d ∧ d ≤ gate_threshold) →
      show_chapter db slug none = .page c (prev_chapter db c) (next_chapter db c)) ∧
    show_chapter db slug (some u) =
      .page c (prev_chapter db c) (next_chapter db c) := by
  have hg : gated c = true ↔ ∃ d, c.display_order = some d ∧ gate_threshold < d := by
    unfold gated
    cases hd : c.display_order with
    | none => simp
    | some d => simp
  unfold show_chapter
  rw [hfind]
  refine ⟨?_, ?_, by simp⟩
  · rw [← hg]
    cases hgb : gated c <;> simp [hgb]
  · intro hsmall
    have hfalse : gated c = false := by
      cases hgb : gated c
      · rfl
      · exfalso
        rcases hg.mp hgb with ⟨d, hd, hlt⟩
        rcases hsmall with h | ⟨d', hd', hle⟩
        · rw [h] at hd; cases hd
        · rw [hd'] at hd; injection hd with h'; omega
    simp [hfalse]

theorem chapter_gate_display_order_only_witness :
    (show_chapter [chA] "chapter-one" none = .loginRequired ↔
      ∃ d, chA.display_order = some d ∧ gate_threshold < d) ∧
    show_chapter [chA] "chapter-one" none =
      .page chA (prev_chapter [chA] chA) (next_chapter [chA] chA) := by
  have h := chapter_gate_display_order_only [chA] "chapter-one" chA ⟨1, "x"⟩ (by rfl)
  exact ⟨h.1, h.2.1 (Or.inr ⟨1, rfl, by decide⟩)⟩

/-- C6: a post-login return path whose parse yields a URL scheme or a
network-location component is rejected in favour of the default fallback
`/account`; a same-origin relative path (no scheme, no netloc, leading `/`)
is honored unchanged. -/
theorem safe_next_policy (s : String) :
    ((urlparse_scheme_netloc s).1 ≠ "" ∨ (urlparse_scheme_netloc s).2 ≠ "" →
      _redirect_to_next (some s) "/account" = ⟨303, "/account"⟩) ∧
    ((urlparse_scheme_netloc s).1 = "" → (urlparse_scheme_netloc s).2 = "" →
      starts_with_slash s = true → _redirect_to_next (some s) "/account" = ⟨303, s⟩) := by
  constructor
  · intro h
    have hne : s ≠ "" := by
      rintro rfl
      revert h
      decide
    have hsafe : _is_safe_next (some s) = false := by
      unfold _is_safe_next
      rcases h with h | h
      · simp [hne, h]
      · simp [hne, h]
    unfold _redirect_to_next
    simp [hsafe]
  · intro h1 h2 h3
    by_cases hne : s = ""
    · rw [hne] at h3
      exact absurd h3 (by decide)
    · have hsafe : _is_safe_next (some s) = true := by
        unfold _is_safe_next
        simp [hne, h1, h2, h3]
      unfold _redirect_to_next
      simp [hsafe, hne]

theorem safe_next_policy_witness :
    _redirect_to_next (some "http://evil.example/x") "/account" = ⟨303, "/account"⟩ ∧
    _redirect_to_next (some "/account") "/account" = ⟨303, "/account"⟩ :=
  ⟨(safe_next_policy "http://evil.example/x").1 (Or.inl (by decide)),
   (safe_next_policy "/account").2 (by decide) (by decide) (by decide)⟩

/- A string with a nonempty left append component is nonempty. -/
theorem append_left_ne_empty (s t : String) (h : s.data ≠ []) : s ++ t ≠ "" := by
  intro he
  apply h
  have hd : (s ++ t).data = [] := by rw [he]
  rw [String.data_append] at hd
  exact (List.append_eq_nil.mp hd).1

/-- C1: the admin content-management operations (chapter create, chapter
update) run the admin gate first: an unauthenticated request is redirected
to the login page with a `next` parameter; an authenticated session whose
normalized email differs from the configured admin address receives a 403
forbidden outcome (not a redirect); the admin reaches the handler. -/
theorem admin_routes_require_admin {α : Type} (adminEmail : String)
    (handler : α) (chapter_id : Nat) (u : SessionUser) :
    (chapter_create_route adminEmail none handler =
        .redirectLogin ("/auth/login?next=" ++ urlquote "/admin/chapters/create") ∧
      chapter_update_route adminEmail none chapter_id handler =
        .redirectLogin ("/auth/login?next=" ++
          urlquote ("/admin/chapters/" ++ toString chapter_id ++ "/update"))) ∧
    (normalize_email u.email ≠ adminEmail →
      chapter_create_route adminEmail (some u) handler = .forbidden ∧
      chapter_update_route adminEmail (some u) chapter_id handler = .forbidden) ∧
    (normalize_email u.email = adminEmail →
      chapter_create_route adminEmail (some u) handler = .ok handler ∧
      chapter_update_route adminEmail (some u) chapter_id handler = .ok handler) := by
  have hpath2 : ("/admin/chapters/" ++ toString chapter_id).data ≠ [] := by
    rw [String.data_append]
    intro h
    exact absurd (List.append_eq_nil.mp h).1 (by decide)
  have hpath : ("/admin/chapters/" ++ toString chapter_id ++ "/update") ≠ "" :=
    append_left_ne_empty _ _ hpath2
  have hpathb : (("/admin/chapters/" ++ toString chapter_id ++ "/update") == "") = false := by
    simpa using hpath
  refine ⟨⟨rfl, ?_⟩, fun hne => ?_, fun heq => ?_⟩
  · unfold chapter_update_route admin_protected require_admin
    simp [hpathb]
  · constructor <;>
      · simp only [chapter_create_route, chapter_update_route, admin_protected,
          require_admin]
        simp [hne]
  · constructor <;>
      · simp only [chapter_create_route, chapter_update_route, admin_protected,
          require_admin]
        simp [heq]

theorem admin_routes_require_admin_witness :
    (chapter_create_route (admin_email_config none) (some ⟨2, "eve@example.com"⟩) (0 : Nat) =
        .forbidden ∧
      chapter_update_route (admin_email_config none) (some ⟨2, "eve@example.com"⟩) 7 (0 : Nat) =
        .forbidden) ∧
    chapter_create_route (admin_email_config none) none (0 : Nat) =
      .redirectLogin ("/auth/login?next=" ++ urlquote "/admin/chapters/create") ∧
    (chapter_create_route (admin_email_config none)
        (some ⟨1, " GrayFenrir@ProtonMail.com "⟩) (0 : Nat) = .ok 0) := by
  refine ⟨?_, ?_, ?_⟩
  · exact (admin_routes_require_admin (admin_email_config none) (0 : Nat) 7
      ⟨2, "eve@example.com"⟩).2.1 (by decide)
  · exact (admin_routes_require_admin (admin_email_config none) (0 : Nat) 7
      ⟨2, "eve@example.com"⟩).1.1
  · exact (admin_routes_require_admin (admin_email_config none) (0 : Nat) 7
      ⟨1, " GrayFenrir@ProtonMail.com "⟩).2.2 (by decide) |>.1

/-- C4 counterexample: redemption is accepted at `now = expires_at`, although
the current time is then not strictly before `expires_at` — the code rejects
only when `expires_at < now`. -/
theorem reset_expiry_boundary_cex :
    ¬(7300 < 7300) ∧
    (∃ pr, stResetA.resets.find?
        (fun r => r.token == "tokenA" && r.used_at == none) = some pr ∧
      pr.expires_at = some 7300) ∧
    (reset_submit stResetA "tokenA" "password1" "password1" 7300).1 = .success := by
  refine ⟨by omega, ⟨⟨1, "tokenA", 100, some 7300, none⟩, by decide, by decide⟩, by decide⟩

/-- C4 amended: a redemption attempt is accepted only if the token exists
with a null `used_at` and the current time is at or before `expires_at`
(the code rejects exactly when `expires_at < now`, so the boundary instant
`now = expires_at` is still accepted); a nonexistent-or-used token and an
expired token both yield the one generic invalid-or-expired outcome, with
no distinction surfaced. -/
theorem reset_validation_generic (st : ResetState) (t pw pwc : String) (now : Nat) :
    ((reset_submit st t pw pwc now).1 ≠ .missingToken →
      (reset_submit st t pw pwc now).1 ≠ .invalidOrExpired →
      ∃ pr, st.resets.find? (fun r => r.token == t && r.used_at == none) = some pr) ∧
    (st.resets.find? (fun r => r.token == t && r.used_at == none) = none → t ≠ "" →
      reset_submit st t pw pwc now = (.invalidOrExpired, st)) ∧
    (∀ pr e, st.resets.find? (fun r => r.token == t && r.used_at == none) = some pr →
      pr.expires_at = some e → e < now → t ≠ "" →
      reset_submit st t pw pwc now = (.invalidOrExpired, st)) ∧
    (∀ pr e, st.resets.find? (fun r => r.token == t && r.used_at == none) = some pr →
      pr.expires_at = some e →
      (reset_submit st t pw pwc now).1 ≠ .missingToken →
      (reset_submit st t pw pwc now).1 ≠ .invalidOrExpired →
      now ≤ e) := by
  refine ⟨?_, ?_, ?_, ?_⟩
  · intro hmiss hinv
    by_cases ht : t = ""
    · exfalso
      apply hmiss
      unfold reset_submit
      simp [ht]
    · cases hf : st.resets.find? (fun r => r.token == t && r.used_at == none) with
      | none =>
        exfalso
        apply hinv
        unfold reset_submit
        simp [ht, hf]
      | some pr => exact ⟨pr, rfl⟩
  · intro hf ht
    unfold reset_submit
    simp [ht, hf]
  · intro pr e hf he hlt ht
    unfold reset_submit
    simp [ht, hf, he, hlt]
  · intro pr e hf he hmiss hinv
    by_contra hgt
    apply hinv
    unfold reset_submit
    have hlt : e < now := by omega
    by_cases ht : t = ""
    · exact absurd (by unfold reset_submit; simp [ht]) hmiss
    · simp [ht, hf, he, hlt]

theorem reset_validation_generic_witness :
    reset_submit stResetA "nope" "password1" "password1" 200 =
      (.invalidOrExpired, stResetA) ∧
    reset_submit stResetA "tokenA" "password1" "password1" 8000 =
      (.invalidOrExpired, stResetA) ∧
    (∃ pr, stResetA.resets.find?
      (fun r => r.token == "tokenA" && r.used_at == none) = some pr) := by
  refine ⟨?_, ?_, ?_⟩
  · exact (reset_validation_generic stResetA "nope" "password1" "password1" 200).2.1
      (by decide) (by decide)
  · exact (reset_validation_generic stResetA "tokenA" "password1" "password1" 8000).2.2.1
      ⟨1, "tokenA", 100, some 7300, none⟩ 7300 (by decide) (by decide) (by decide) (by decide)
  · exact (reset_validation_generic stResetA "tokenA" "password1" "password1" 200).1
      (by decide) (by decide)

/- A successful `find?` splits the list around the found element, with the
   predicate false on everything before it. -/
theorem find?_split_of_eq_some {α : Type} {p : α → Bool} {l : List α} {x : α}
    (h : l.find? p = some x) :
    ∃ l₁ l₂, l = l₁ ++ x :: l₂ ∧ ∀ a ∈ l₁, p a = false := by
  induction l with
  | nil => cases h
  | cons a t ih =>
    by_cases hpa : p a = true
    · rw [List.find?_cons_of_pos _ hpa] at h
      cases h
      exact ⟨[], t, rfl, by simp⟩
    · rw [List.find?_cons_of_neg _ hpa] at h
      obtain ⟨l₁, l₂, hsplit, hfalse⟩ := ih h
      refine ⟨a :: l₁, l₂, by rw [hsplit]; rfl, ?_⟩
      intro b hb
      rcases List.mem_cons.mp hb with rfl | hb'
      · exact Bool.eq_false_iff.mpr hpa
      · exact hfalse b hb'

/- `update_first` rewrites exactly the element after a prefix on which the
   predicate is false. -/
theorem update_first_append_of_prefix_false {α : Type} (p : α → Bool) (f : α → α)
    (l₁ : List α) (x : α) (l₂ : List α)
    (h₁ : ∀ a ∈ l₁, p a = false) (hx : p x = true) :
    update_first p f (l₁ ++ x :: l₂) = l₁ ++ f x :: l₂ := by
  induction l₁ with
  | nil => simp [update_first, hx]
  | cons a t ih =>
    have ha : p a = false := h₁ a (List.mem_cons_self a t)
    simp only [List.cons_append, update_first, ha]
    simp only [Bool.false_eq_true, if_false]
    exact congrArg (a :: ·) (ih fun b hb => h₁ b (List.mem_cons_of_mem a hb))

/- `find?` with a predicate preserved by the update sees the updated head
   match. -/
theorem find?_update_first_key {α : Type} (p : α → Bool) (f : α → α) (l : List α)
    (hpf : ∀ a, p (f a) = p a) :
    (update_first p f l).find? p = (l.find? p).map f := by
  induction l with
  | nil => rfl
  | cons a t ih =>
    by_cases hpa : p a = true
    · simp [update_first, hpa, List.find?_cons_of_pos, hpf a]
    · have : p a = false := Bool.eq_false_iff.mpr hpa
      simp [update_first, this, List.find?_cons_of_neg, hpa, ih]

/- `find?` skips a prefix on which the predicate is false. -/
theorem find?_append_of_prefix_false {α : Type} (p : α → Bool) (l₁ l₂ : List α)
    (h : ∀ a ∈ l₁, p a = false) :
    (l₁ ++ l₂).find? p = l₂.find? p := by
  induction l₁ with
  | nil => rfl
  | cons a t ih =>
    have ha : p a = false := h a (List.mem_cons_self a t)
    simp only [List.cons_append]
    rw [List.find?_cons_of_neg _ (by simp [ha]),
      ih fun b hb => h b (List.mem_cons_of_mem a hb)]

/-- C3: a stored, unused, unexpired reset token with a valid new password
redeems successfully — the user's credential becomes the hash of the new
password and the token's `used_at` is set to the current time — and every
subsequent redemption attempt with the same token fails with the generic
invalid-or-expired outcome, leaving the state unchanged. -/
theorem reset_token_single_use (st : ResetState) (t pw : String) (now : Nat)
    (pr : PRec) (user : UserRec) (e : Nat)
    (htok : (st.resets.map (·.token)).Nodup)
    (ht : t ≠ "")
    (hfind : st.resets.find? (fun r => r.token == t && r.used_at == none) = some pr)
    (hexp : pr.expires_at = some e)
    (hnow : now ≤ e)
    (hpw : 8 ≤ pw.length)
    (huser : st.users.find? (fun u => u.id == pr.user_id) = some user) :
    (reset_submit st t pw pw now).1 = .success ∧
    (reset_submit st t pw pw now).2.users.find? (fun u => u.id == pr.user_id) =
      some { user with password_hash := hash_password pw } ∧
    (reset_submit st t pw pw now).2.resets.find? (fun r => r.token == t) =
      some { pr with used_at := some now } ∧
    (∀ pw' pwc' now',
      reset_submit (reset_submit st t pw pw now).2 t pw' pwc' now' =
        (.invalidOrExpired, (reset_submit st t pw pw now).2)) := by
  have hp_pr := List.find?_some hfind
  have hprt : pr.token = t ∧ pr.used_at = none := by
    simpa [Bool.and_eq_true] using hp_pr
  have htF : (t == "") = false := by simpa using ht
  have hnotlt : ¬(e < now) := by omega
  have hpw0 : (pw == "") = false := by
    cases h : pw == ""
    · rfl
    · exfalso
      have hempty : pw = "" := by simpa using h
      rw [hempty] at hpw
      exact absurd hpw (by decide)
  have hlen8 : ¬(pw.length < 8) := by omega
  have hR : reset_submit st t pw pw now =
      (.success,
       ⟨update_first (fun u => u.id == pr.user_id)
          (fun u => { u with password_hash := hash_password pw }) st.users,
        (update_first (fun r => r.token == t && r.used_at == none)
            (fun r => { r with used_at := some now }) st.resets).filter
          (fun r => !(r.user_id == user.id && r.used_at == none))⟩) := by
    unfold reset_submit
    simp [htF, hfind, hexp, hnotlt, hpw0, hlen8, huser]
  obtain ⟨l₁, l₂, hsplit, hpre⟩ := find?_split_of_eq_some hfind
  have hupdate : update_first (fun r => r.token == t && r.used_at == none)
      (fun r => { r with used_at := some now }) st.resets =
      l₁ ++ { pr with used_at := some now } :: l₂ := by
    rw [hsplit]
    exact update_first_append_of_prefix_false _ _ _ _ _ hpre hp_pr
  have htok' := htok
  rw [hsplit, List.map_append, List.map_cons, List.nodup_append] at htok'
  obtain ⟨hA, hB, hAB⟩ := htok'
  rw [List.nodup_cons] at hB
  have hmem₂ : pr.token ∉ l₂.map (·.token) := hB.1
  have hmem₁ : pr.token ∉ l₁.map (·.token) :=
    fun hmem => hAB hmem (List.mem_cons_self _ _)
  have hl₁ : ∀ a ∈ l₁, a.token ≠ t := by
    intro a ha heq
    exact hmem₁ (List.mem_map.mpr ⟨a, ha, by rw [heq, hprt.1]⟩)
  have hl₂ : ∀ a ∈ l₂, a.token ≠ t := by
    intro a ha heq
    exact hmem₂ (List.mem_map.mpr ⟨a, ha, by rw [heq, hprt.1]⟩)
  have hqU : (!({ pr with used_at := some now }.user_id == user.id &&
      ({ pr with used_at := some now }.used_at == none))) = true := by
    simp
  have hfilter : (update_first (fun r => r.token == t && r.used_at == none)
      (fun r => { r with used_at := some now }) st.resets).filter
        (fun r => !(r.user_id == user.id && r.used_at == none)) =
      l₁.filter (fun r => !(r.user_id == user.id && r.used_at == none)) ++
        { pr with used_at := some now } ::
          l₂.filter (fun r => !(r.user_id == user.id && r.used_at == none)) := by
    rw [hupdate, List.filter_append, List.filter_cons, if_pos hqU]
  refine ⟨by rw [hR], ?_, ?_, ?_⟩
  · rw [hR]
    show (update_first (fun u => u.id == pr.user_id)
        (fun u => { u with password_hash := hash_password pw }) st.users).find?
        (fun u => u.id == pr.user_id) = _
    rw [find?_update_first_key (fun u => u.id == pr.user_id)
      (fun u => { u with password_hash := hash_password pw }) st.users (fun a => rfl),
      huser]
    rfl
  · rw [hR]
    show ((update_first (fun r => r.token == t && r.used_at == none)
        (fun r => { r with used_at := some now }) st.resets).filter
          (fun r => !(r.user_id == user.id && r.used_at == none))).find?
        (fun r => r.token == t) = _
    rw [hfilter,
      find?_append_of_prefix_false _ _ _ (by
        intro a ha
        exact beq_eq_false_iff_ne.mpr (hl₁ a (List.mem_of_mem_filter ha))),
      List.find?_cons_of_pos _ (by simpa using hprt.1)]
  · intro pw' pwc' now'
    have hnone : ((update_first (fun r => r.token == t && r.used_at == none)
        (fun r => { r with used_at := some now }) st.resets).filter
          (fun r => !(r.user_id == user.id && r.used_at == none))).find?
        (fun r => r.token == t && r.used_at == none) = none := by
      rw [List.find?_eq_none]
      intro r hr
      rw [hfilter] at hr
      rcases List.mem_append.mp hr with h | h
      · have := hl₁ _ (List.mem_of_mem_filter h)
        simp [this]
      · rcases List.mem_cons.mp h with rfl | h'
        · simp
        · have := hl₂ _ (List.mem_of_mem_filter h')
          simp [this]
    rw [hR]
    show reset_submit
        ⟨update_first (fun u => u.id == pr.user_id)
            (fun u => { u with password_hash := hash_password pw }) st.users,
          (update_first (fun r => r.token == t && r.used_at == none)
              (fun r => { r with used_at := some now }) st.resets).filter
            (fun r => !(r.user_id == user.id && r.used_at == none))⟩ t pw' pwc' now' = _
    unfold reset_submit
    rw [if_neg (by simp [htF])]
    rw [hnone]

theorem reset_token_single_use_witness :
    (reset_submit stResetA "tokenA" "password1" "password1" 200).1 = .success ∧
    (reset_submit stResetA "tokenA" "password1" "password1" 200).2.users.find?
        (fun u => u.id == 1) = some ⟨1, "a@b.c", hash_password "password1"⟩ ∧
    (reset_submit stResetA "tokenA" "password1" "password1" 200).2.resets.find?
        (fun r => r.token == "tokenA") = some ⟨1, "tokenA", 100, some 7300, some 200⟩ ∧
    reset_submit (reset_submit stResetA "tokenA" "password1" "password1" 200).2
        "tokenA" "password2" "password2" 300 =
      (.invalidOrExpired, (reset_submit stResetA "tokenA" "password1" "password1" 200).2) := by
  have h := reset_token_single_use stResetA "tokenA" "password1" 200
    ⟨1, "tokenA", 100, some 7300, none⟩ ⟨1, "a@b.c", "h0"⟩ 7300
    (by decide) (by decide) (by decide) (by decide) (by decide) (by decide) (by decide)
  exact ⟨h.1, h.2.1, h.2.2.1, h.2.2.2 "password2" "password2" 300⟩

/- Updating the first matching element cannot raise a count whenever the
   update never turns a non-counted element into a counted one. -/
theorem countP_update_first_le {α : Type} (p q : α → Bool) (f : α → α) (l : List α)
    (h : ∀ a, p a = true → q (f a) = true → q a = true) :
    (update_first p f l).countP q ≤ l.countP q := by
  induction l with
  | nil => exact Nat.le_refl _
  | cons a t ih =>
    simp only [update_first]
    by_cases hpa : p a = true
    · rw [if_pos hpa, List.countP_cons, List.countP_cons]
      by_cases hq : q (f a) = true
      · rw [hq, h a hpa hq]
      · rw [Bool.eq_false_iff.mpr hq]
        simp only [Bool.false_eq_true, if_false]
        exact Nat.add_le_add_left (Nat.zero_le _) _
    · rw [if_neg hpa, List.countP_cons, List.countP_cons]
      exact Nat.add_le_add_right ih _

/- The state after `forgot_submit`: unchanged, or the user's reset rows are
   replaced by the single fresh token. -/
theorem forgot_submit_state (st : ResetState) (email tok : String) (now : Nat) :
    (forgot_submit st email tok now).2 = st ∨
    ∃ user : UserRec,
      st.users.find? (fun u => u.email == normalize_email email) = some user ∧
      (forgot_submit st email tok now).2 =
        ⟨st.users, st.resets.filter (fun r => !(r.user_id == user.id)) ++
          [⟨user.id, tok, now, some (now + 7200), none⟩]⟩ := by
  unfold forgot_submit
  dsimp only
  split
  · exact Or.inl rfl
  · rename_i user hfu
    split
    · exact Or.inl rfl
    · exact Or.inr ⟨user, hfu, rfl⟩

/- The state after `reset_submit`: unchanged, or the success update. -/
theorem reset_submit_state (st : ResetState) (t pw pwc : String) (now : Nat) :
    (reset_submit st t pw pwc now).2 = st ∨
    ∃ (pr : PRec) (user : UserRec),
      st.resets.find? (fun r => r.token == t && r.used_at == none) = some pr ∧
      (reset_submit st t pw pwc now).2 =
        ⟨update_first (fun u => u.id == pr.user_id)
           (fun u => { u with password_hash := hash_password pw }) st.users,
         (update_first (fun r => r.token == t && r.used_at == none)
             (fun r => { r with used_at := some now }) st.resets).filter
           (fun r => !(r.user_id == user.id && r.used_at == none))⟩ := by
  unfold reset_submit
  dsimp only
  split
  · exact Or.inl rfl
  · split
    · exact Or.inl rfl
    · rename_i pr hfind
      split
      · exact Or.inl rfl
      · split
        · exact Or.inl rfl
        · split
          · exact Or.inl rfl
          · split
            · exact Or.inl rfl
            · split
              · exact Or.inl rfl
              · rename_i user huser
                exact Or.inr ⟨pr, user, hfind, rfl⟩

/- Each lifecycle step preserves the at-most-one-outstanding-token
   invariant. -/
theorem resetInv_apply_op (st : ResetState) (op : ResetOp) (h : ResetInv st) :
    ResetInv (apply_reset_op st op) := by
  cases op with
  | forgot email tok now =>
    show ResetInv (forgot_submit st email tok now).2
    rcases forgot_submit_state st email tok now with heq | ⟨user, hfu, heq⟩
    · rw [heq]; exact h
    · rw [heq]
      intro uid
      show (st.resets.filter (fun r => !(r.user_id == user.id)) ++
        [(⟨user.id, tok, now, some (now + 7200), none⟩ : PRec)]).countP
          (unused_for uid) ≤ 1
      rw [List.countP_append]
      by_cases huid : uid = user.id
      · have h0 : (st.resets.filter (fun r => !(r.user_id == user.id))).countP
            (unused_for uid) = 0 := by
          rw [List.countP_eq_zero]
          intro r hr hcnt
          have hq := List.of_mem_filter hr
          have hcnt' : r.user_id = uid ∧ r.used_at = none := by
            simpa [unused_for] using hcnt
          rw [hcnt'.1, huid] at hq
          simp at hq
        have h1 : ([(⟨user.id, tok, now, some (now + 7200), none⟩ : PRec)]).countP
            (unused_for uid) ≤ 1 := by
          rw [List.countP_cons, List.countP_nil]
          split <;> omega
        omega
      · have h1 : (st.resets.filter (fun r => !(r.user_id == user.id))).countP
            (unused_for uid) ≤ st.resets.countP (unused_for uid) :=
          (List.filter_sublist _).countP_le _
        have h2 : ([(⟨user.id, tok, now, some (now + 7200), none⟩ : PRec)]).countP
            (unused_for uid) = 0 := by
          rw [List.countP_eq_zero]
          intro r hr hcnt
          rw [List.mem_singleton] at hr
          rw [hr] at hcnt
          have hcnt' : user.id = uid ∧ (none : Option Nat) = none := by
            simpa [unused_for] using hcnt
          exact huid hcnt'.1.symm
        have h3 := h uid
        omega
  | reset t pw pwc now =>
    show ResetInv (reset_submit st t pw pwc now).2
    rcases reset_submit_state st t pw pwc now with heq | ⟨pr, user, hfind, heq⟩
    · rw [heq]; exact h
    · rw [heq]
      intro uid
      show ((update_first (fun r => r.token == t && r.used_at == none)
          (fun r => { r with used_at := some now }) st.resets).filter
            (fun r => !(r.user_id == user.id && r.used_at == none))).countP
          (unused_for uid) ≤ 1
      have h1 : ((update_first (fun r => r.token == t && r.used_at == none)
            (fun r => { r with used_at := some now }) st.resets).filter
          (fun r => !(r.user_id == user.id && r.used_at == none))).countP
            (unused_for uid) ≤
          (update_first (fun r => r.token == t && r.used_at == none)
            (fun r => { r with used_at := some now }) st.resets).countP
            (unused_for uid) :=
        (List.filter_sublist _).countP_le _
      have h2 : (update_first (fun r => r.token == t && r.used_at == none)
            (fun r => { r with used_at := some now }) st.resets).countP
            (unused_for uid) ≤ st.resets.countP (unused_for uid) := by
        apply countP_update_first_le
        intro a hpa hqfa
        exact absurd hqfa (by simp [unused_for])
      exact le_trans h1 (le_trans h2 (h uid))

/- The invariant holds after any sequence of lifecycle steps. -/
theorem resetInv_run (st : ResetState) (ops : List ResetOp) (h : ResetInv st) :
    ResetInv (run_reset_ops st ops) := by
  induction ops generalizing st with
  | nil => exact h
  | cons op rest ih => exact ih _ (resetInv_apply_op st op h)

/-- C5: starting from any state with at most one outstanding reset token per
user, after any sequence of issue (forgot) and redeem (reset) operations, at
most one live (unused, unexpired) token exists per user. -/
theorem at_most_one_live_token (st : ResetState) (ops : List ResetOp)
    (uid now : Nat) (h : ResetInv st) :
    ((run_reset_ops st ops).resets.filter (live_for uid now)).length ≤ 1 := by
  have hinv := resetInv_run st ops h uid
  rw [← List.countP_eq_length_filter]
  refine le_trans (List.countP_mono_left ?_) hinv
  intro r _ hl
  have hl' : r.user_id = uid ∧ can_redeem r now = true := by
    simpa [live_for] using hl
  have hu : r.used_at = none := by
    have hc := hl'.2
    unfold can_redeem is_used at hc
    rcases hused : r.used_at with _ | v
    · rfl
    · rw [hused] at hc
      simp at hc
  simp [unused_for, hl'.1, hu]

theorem at_most_one_live_token_witness :
    ((run_reset_ops stResetA
        [.forgot "a@b.c" "tok9" 0, .reset "tok9" "password1" "password1" 50]).resets.filter
      (live_for 1 60)).length ≤ 1 :=
  at_most_one_live_token stResetA
    [.forgot "a@b.c" "tok9" 0, .reset "tok9" "password1" "password1" 50] 1 60 (by decide)

/-- C7 counterexample: the sentinel 1000000000 is not larger than every real
`display_order` value; a chapter with `display_order = 1000000000` ties with
a null-ordered chapter and loses the id tie-break, so a null-ordered chapter
precedes a keyed one in the listing. -/
theorem listing_order_claim_cex :
    list_chapters [chBig, chB] = [chB, chBig] ∧
    chB.display_order = none ∧
    chBig.display_order = some 1000000000 ∧
    ¬claimOrder chB chBig := by
  decide

/-- C7 amended: provided every set `display_order` is below the sentinel
1000000000 and row ids are distinct, the listing is a permutation of the
table in which every keyed chapter precedes every unkeyed one, each group
ascending by key and then by id. -/
theorem listing_order_spec (db : List Chapter)
    (hbound : ∀ c ∈ db, ∀ d, c.display_order = some d → d < 1000000000)
    (hid : (db.map (fun c => c.id)).Nodup) :
    List.Perm (list_chapters db) db ∧ (list_chapters db).Pairwise claimOrder := by
  have hperm : List.Perm (list_chapters db) db := List.perm_insertionSort chLe db
  refine ⟨hperm, ?_⟩
  have hsorted : List.Sorted chLe (list_chapters db) := List.sorted_insertionSort chLe db
  have hid' : ((list_chapters db).map (fun c => c.id)).Nodup :=
    ((hperm.map (fun c => c.id)).nodup_iff).mpr hid
  have hne : (list_chapters db).Pairwise fun a b => a.id ≠ b.id := by
    rw [List.Nodup, List.pairwise_map] at hid'
    exact hid'
  refine (hsorted.and hne).imp_of_mem ?_
  intro a b ha hb hab
  obtain ⟨hle, hneid⟩ := hab
  have hadb : a ∈ db := hperm.subset ha
  have hbdb : b ∈ db := hperm.subset hb
  unfold chLe at hle
  cases hda : a.display_order with
  | none =>
    have hka : ord_key a = 1000000000 := by simp [ord_key, hda]
    cases hdb : b.display_order with
    | none =>
      have hkb : ord_key b = 1000000000 := by simp [ord_key, hdb]
      simp only [claimOrder, hda, hdb]
      rw [hka, hkb] at hle
      omega
    | some d' =>
      have hkb : ord_key b = d' := by simp [ord_key, hdb]
      have hb' := hbound b hbdb d' hdb
      simp only [claimOrder, hda, hdb]
      rw [hka, hkb] at hle
      omega
  | some d =>
    have hka : ord_key a = d := by simp [ord_key, hda]
    cases hdb : b.display_order with
    | none => simp only [claimOrder, hda, hdb]
    | some d' =>
      have hkb : ord_key b = d' := by simp [ord_key, hdb]
      simp only [claimOrder, hda, hdb]
      rw [hka, hkb] at hle
      omega

theorem listing_order_spec_witness :
    List.Perm (list_chapters [chB, chA]) [chB, chA] ∧
    (list_chapters [chB, chA]).Pairwise claimOrder :=
  listing_order_spec [chB, chA]
    (by
      intro c hc d hd
      rcases List.mem_cons.mp hc with rfl | hc'
      · exact absurd hd (by simp [chB])
      · rw [List.mem_singleton] at hc'
        subst hc'
        have hd' : (1 : Int) = d := by simpa [chA] using hd
        omega)
    (by decide)

/- Basic facts about the ordering comparators. -/
theorem chLe_refl (a : Chapter) : chLe a a := Or.inr ⟨rfl, Nat.le_refl _⟩

theorem not_chLt_self (a : Chapter) : ¬chLt a a := by unfold chLt; omega

theorem chLt_asymm (a b : Chapter) (h1 : chLt a b) (h2 : chLt b a) : False := by
  unfold chLt at h1 h2; omega

theorem chLt_chLe_false (a b : Chapter) (h1 : chLt a b) (h2 : chLe b a) : False := by
  unfold chLt at h1; unfold chLe at h2; omega

theorem chLt_of_chLe_ne (a b : Chapter) (h : chLe a b) (hne : a.id ≠ b.id) : chLt a b := by
  unfold chLe at h; unfold chLt; omega

/- A `.filter(key == value).first()` lookup on a column with unique values
   returns exactly the member row carrying that value. -/
theorem find?_key_of_nodup {α β : Type} [BEq β] [LawfulBEq β] (f : α → β) (l : List α)
    (hn : (l.map f).Nodup) (c : α) (hc : c ∈ l) :
    l.find? (fun x => f x == f c) = some c := by
  induction l with
  | nil => cases hc
  | cons a t ih =>
    rw [List.map_cons, List.nodup_cons] at hn
    by_cases hfa : (f a == f c) = true
    · have hfa' : f a = f c := by simpa using hfa
      have hac : a = c := by
        rcases List.mem_cons.mp hc with rfl | hct
        · rfl
        · exact absurd (hfa' ▸ List.mem_map.mpr ⟨c, hct, rfl⟩) hn.1
      rw [List.find?_cons_of_pos _ (by exact hfa), hac]
    · have hct : c ∈ t := by
        rcases List.mem_cons.mp hc with rfl | hct
        · exact absurd (by simp) hfa
        · exact hct
      rw [List.find?_cons_of_neg _ (by exact hfa)]
      exact ih hn.2 hct

/- The head of the descending sort is a maximum of the list. -/
theorem head?_sort_desc_max (l : List Chapter) (m : Chapter)
    (h : (l.insertionSort chGe).head? = some m) : m ∈ l ∧ ∀ x ∈ l, chLe x m := by
  have hperm : List.Perm (l.insertionSort chGe) l := List.perm_insertionSort chGe l
  have hs : List.Sorted chGe (l.insertionSort chGe) := List.sorted_insertionSort chGe l
  cases hsl : l.insertionSort chGe with
  | nil => rw [hsl] at h; cases h
  | cons m' rest =>
    rw [hsl] at h hperm hs
    have hm : m' = m := by simpa using h
    subst hm
    refine ⟨hperm.subset (List.mem_cons_self _ _), ?_⟩
    intro x hx
    rcases List.mem_cons.mp (hperm.symm.subset hx) with rfl | hx'
    · exact chLe_refl x
    · exact List.rel_of_sorted_cons hs x hx'

/- The head of the ascending sort is a minimum of the list. -/
theorem head?_sort_asc_min (l : List Chapter) (m : Chapter)
    (h : (l.insertionSort chLe).head? = some m) : m ∈ l ∧ ∀ x ∈ l, chLe m x := by
  have hperm : List.Perm (l.insertionSort chLe) l := List.perm_insertionSort chLe l
  have hs : List.Sorted chLe (l.insertionSort chLe) := List.sorted_insertionSort chLe l
  cases hsl : l.insertionSort chLe with
  | nil => rw [hsl] at h; cases h
  | cons m' rest =>
    rw [hsl] at h hperm hs
    have hm : m' = m := by simpa using h
    subst hm
    refine ⟨hperm.subset (List.mem_cons_self _ _), ?_⟩
    intro x hx
    rcases List.mem_cons.mp (hperm.symm.subset hx) with rfl | hx'
    · exact chLe_refl x
    · exact List.rel_of_sorted_cons hs x hx'

/- Sorting an empty list is the only way to get an empty sort. -/
theorem insertionSort_eq_nil_iff (r : Chapter → Chapter → Prop) [DecidableRel r]
    (l : List Chapter) : l.insertionSort r = [] ↔ l = [] := by
  constructor
  · intro h
    have := (List.perm_insertionSort r l).length_eq
    rw [h] at this
    exact List.length_eq_zero.mp this.symm
  · intro h
    rw [h]
    rfl

/- The SQL filter of the `prev` query selects exactly the rows strictly
   below the current chapter in the total order. -/
theorem prevPred_iff (c x : Chapter) :
    prevPred (ord_key c) c.id x = true ↔ chLt x c := by
  unfold prevPred chLt
  simp [Bool.or_eq_true, Bool.and_eq_true, decide_eq_true_eq]

/- The SQL filter of the `next` query selects exactly the rows strictly
   above the current chapter in the total order. -/
theorem nextPred_iff (c x : Chapter) :
    nextPred (ord_key c) c.id x = true ↔ chLt c x := by
  unfold nextPred chLt
  rw [Bool.or_eq_true, Bool.and_eq_true]
  simp only [decide_eq_true_eq]
  constructor
  · rintro (h | ⟨h1, h2⟩)
    · exact Or.inl h
    · exact Or.inr ⟨h1.symm, h2⟩
  · rintro (h | ⟨h1, h2⟩)
    · exact Or.inl h
    · exact Or.inr ⟨h1.symm, h2⟩

/- The `prev` query of `show_chapter` returns the chapter one position
   earlier in the listing order, and an explicit absence for the first. -/
theorem prev_at_index (db : List Chapter) (hid : (db.map (fun c => c.id)).Nodup)
    (i : Nat) (hi : i < (list_chapters db).length) :
    prev_chapter db ((list_chapters db).get ⟨i, hi⟩) =
      if h0 : i = 0 then none
      else some ((list_chapters db).get ⟨i - 1, by omega⟩) := by
  have hperm : List.Perm (list_chapters db) db := List.perm_insertionSort chLe db
  have hsorted : List.Sorted chLe (list_chapters db) := List.sorted_insertionSort chLe db
  have hne : (list_chapters db).Pairwise fun a b => a.id ≠ b.id := by
    have hid' : ((list_chapters db).map (fun c => c.id)).Nodup :=
      ((hperm.map (fun c => c.id)).nodup_iff).mpr hid
    rw [List.Nodup, List.pairwise_map] at hid'
    exact hid'
  have hstrict : ∀ p q : Fin (list_chapters db).length, p < q →
      chLt ((list_chapters db).get p) ((list_chapters db).get q) := fun p q hpq =>
    chLt_of_chLe_ne _ _ (hsorted.rel_get_of_lt hpq) (List.pairwise_iff_get.mp hne p q hpq)
  have hcdb : (list_chapters db).get ⟨i, hi⟩ ∈ db :=
    hperm.subset (List.get_mem _ i hi)
  have hfid : db.find? (fun x => x.id == ((list_chapters db).get ⟨i, hi⟩).id) =
      some ((list_chapters db).get ⟨i, hi⟩) :=
    find?_key_of_nodup (fun c => c.id) db hid _ hcdb
  unfold prev_chapter cur_key_of
  rw [hfid]
  simp only [Option.map_some']
  by_cases h0 : i = 0
  · rw [dif_pos h0]
    have hempty : db.filter (prevPred (ord_key ((list_chapters db).get ⟨i, hi⟩))
        ((list_chapters db).get ⟨i, hi⟩).id) = [] := by
      rw [List.filter_eq_nil_iff]
      intro x hx hpx
      have hlt : chLt x ((list_chapters db).get ⟨i, hi⟩) := (prevPred_iff _ x).mp hpx
      obtain ⟨⟨j, hj⟩, hxj⟩ := List.mem_iff_get.mp (hperm.symm.subset hx)
      by_cases hj0 : j = 0
      · apply not_chLt_self ((list_chapters db).get ⟨i, hi⟩)
        have hxc : x = (list_chapters db).get ⟨i, hi⟩ := by
          rw [← hxj]
          subst h0
          subst hj0
          rfl
        exact hxc ▸ hlt
      · have hlt2 : chLt ((list_chapters db).get ⟨i, hi⟩)
            ((list_chapters db).get ⟨j, hj⟩) := by
          apply hstrict
          exact Fin.mk_lt_mk.mpr (by omega)
        rw [hxj] at hlt2
        exact chLt_asymm x _ hlt hlt2
    rw [hempty]
    rfl
  · rw [dif_neg h0]
    have hi1 : i - 1 < (list_chapters db).length := by omega
    have hbc : chLt ((list_chapters db).get ⟨i - 1, hi1⟩) ((list_chapters db).get ⟨i, hi⟩) :=
      hstrict ⟨i - 1, hi1⟩ ⟨i, hi⟩ (Fin.mk_lt_mk.mpr (by omega))
    have hbf : (list_chapters db).get ⟨i - 1, hi1⟩ ∈
        db.filter (prevPred (ord_key ((list_chapters db).get ⟨i, hi⟩))
          ((list_chapters db).get ⟨i, hi⟩).id) :=
      List.mem_filter.mpr ⟨hperm.subset (List.get_mem _ _ _), (prevPred_iff _ _).mpr hbc⟩
    cases hh : ((db.filter (prevPred (ord_key ((list_chapters db).get ⟨i, hi⟩))
        ((list_chapters db).get ⟨i, hi⟩).id)).insertionSort chGe).head? with
    | none =>
      exfalso
      have hnil := (insertionSort_eq_nil_iff chGe _).mp (List.head?_eq_none_iff.mp hh)
      rw [hnil] at hbf
      cases hbf
    | some m =>
      obtain ⟨hmf, hmax⟩ := head?_sort_desc_max _ m hh
      have hmdb : m ∈ db := (List.mem_filter.mp hmf).1
      have hmc : chLt m ((list_chapters db).get ⟨i, hi⟩) :=
        (prevPred_iff _ m).mp (List.mem_filter.mp hmf).2
      have hble : chLe ((list_chapters db).get ⟨i - 1, hi1⟩) m := hmax _ hbf
      obtain ⟨⟨j, hj⟩, hmj⟩ := List.mem_iff_get.mp (hperm.symm.subset hmdb)
      have hji : j < i := by
        rcases Nat.lt_trichotomy j i with h | h | h
        · exact h
        · exfalso
          apply not_chLt_self ((list_chapters db).get ⟨i, hi⟩)
          have hmeq : m = (list_chapters db).get ⟨i, hi⟩ := by
            rw [← hmj]
            subst h
            rfl
          exact hmeq ▸ hmc
        · exfalso
          have hlt2 := hstrict ⟨i, hi⟩ ⟨j, hj⟩ (Fin.mk_lt_mk.mpr h)
          rw [hmj] at hlt2
          exact chLt_asymm m _ hmc hlt2
      rcases Nat.lt_trichotomy j (i - 1) with h | h | h
      · exfalso
        have hlt2 := hstrict ⟨j, hj⟩ ⟨i - 1, hi1⟩ (Fin.mk_lt_mk.mpr h)
        rw [hmj] at hlt2
        exact chLt_chLe_false m _ hlt2 hble
      · rw [← hmj]
        subst h
        rfl
      · omega

/- The `next` query of `show_chapter` returns the chapter one position
   later in the listing order, and an explicit absence for the last. -/
theorem next_at_index (db : List Chapter) (hid : (db.map (fun c => c.id)).Nodup)
    (i : Nat) (hi : i < (list_chapters db).length) :
    next_chapter db ((list_chapters db).get ⟨i, hi⟩) = (list_chapters db)[i + 1]? := by
  have hperm : List.Perm (list_chapters db) db := List.perm_insertionSort chLe db
  have hsorted : List.Sorted chLe (list_chapters db) := List.sorted_insertionSort chLe db
  have hne : (list_chapters db).Pairwise fun a b => a.id ≠ b.id := by
    have hid' : ((list_chapters db).map (fun c => c.id)).Nodup :=
      ((hperm.map (fun c => c.id)).nodup_iff).mpr hid
    rw [List.Nodup, List.pairwise_map] at hid'
    exact hid'
  have hstrict : ∀ p q : Fin (list_chapters db).length, p < q →
      chLt ((list_chapters db).get p) ((list_chapters db).get q) := fun p q hpq =>
    chLt_of_chLe_ne _ _ (hsorted.rel_get_of_lt hpq) (List.pairwise_iff_get.mp hne p q hpq)
  have hcdb : (list_chapters db).get ⟨i, hi⟩ ∈ db :=
    hperm.subset (List.get_mem _ i hi)
  have hfid : db.find? (fun x => x.id == ((list_chapters db).get ⟨i, hi⟩).id) =
      some ((list_chapters db).get ⟨i, hi⟩) :=
    find?_key_of_nodup (fun c => c.id) db hid _ hcdb
  unfold next_chapter cur_key_of
  rw [hfid]
  simp only [Option.map_some']
  by_cases hlast : i + 1 < (list_chapters db).length
  · rw [List.getElem?_eq_getElem hlast]
    have hbc : chLt ((list_chapters db).get ⟨i, hi⟩) ((list_chapters db).get ⟨i + 1, hlast⟩) :=
      hstrict ⟨i, hi⟩ ⟨i + 1, hlast⟩ (Fin.mk_lt_mk.mpr (by omega))
    have hbf : (list_chapters db).get ⟨i + 1, hlast⟩ ∈
        db.filter (nextPred (ord_key ((list_chapters db).get ⟨i, hi⟩))
          ((list_chapters db).get ⟨i, hi⟩).id) :=
      List.mem_filter.mpr ⟨hperm.subset (List.get_mem _ _ _), (nextPred_iff _ _).mpr hbc⟩
    cases hh : ((db.filter (nextPred (ord_key ((list_chapters db).get ⟨i, hi⟩))
        ((list_chapters db).get ⟨i, hi⟩).id)).insertionSort chLe).head? with
    | none =>
      exfalso
      have hnil := (insertionSort_eq_nil_iff chLe _).mp (List.head?_eq_none_iff.mp hh)
      rw [hnil] at hbf
      cases hbf
    | some m =>
      obtain ⟨hmf, hmin⟩ := head?_sort_asc_min _ m hh
      have hmdb : m ∈ db := (List.mem_filter.mp hmf).1
      have hmc : chLt ((list_chapters db).get ⟨i, hi⟩) m :=
        (nextPred_iff _ m).mp (List.mem_filter.mp hmf).2
      have hble : chLe m ((list_chapters db).get ⟨i + 1, hlast⟩) := hmin _ hbf
      obtain ⟨⟨j, hj⟩, hmj⟩ := List.mem_iff_get.mp (hperm.symm.subset hmdb)
      have hji : i < j := by
        rcases Nat.lt_trichotomy i j with h | h | h
        · exact h
        · exfalso
          apply not_chLt_self ((list_chapters db).get ⟨i, hi⟩)
          have hmeq : m = (list_chapters db).get ⟨i, hi⟩ := by
            rw [← hmj]
            subst h
            rfl
          exact hmeq ▸ hmc
        · exfalso
          have hlt2 := hstrict ⟨j, hj⟩ ⟨i, hi⟩ (Fin.mk_lt_mk.mpr h)
          rw [hmj] at hlt2
          exact chLt_asymm _ m hmc hlt2
      rcases Nat.lt_trichotomy j (i + 1) with h | h | h
      · omega
      · rw [← hmj]
        subst h
        rfl
      · exfalso
        have hlt2 := hstrict ⟨i + 1, hlast⟩ ⟨j, hj⟩ (Fin.mk_lt_mk.mpr h)
        rw [hmj] at hlt2
        exact chLt_chLe_false _ m hlt2 hble
  · rw [List.getElem?_eq_none (by omega)]
    have hempty : db.filter (nextPred (ord_key ((list_chapters db).get ⟨i, hi⟩))
        ((list_chapters db).get ⟨i, hi⟩).id) = [] := by
      rw [List.filter_eq_nil_iff]
      intro x hx hpx
      have hlt : chLt ((list_chapters db).get ⟨i, hi⟩) x := (nextPred_iff _ x).mp hpx
      obtain ⟨⟨j, hj⟩, hxj⟩ := List.mem_iff_get.mp (hperm.symm.subset hx)
      by_cases hji : j = i
      · apply not_chLt_self ((list_chapters db).get ⟨i, hi⟩)
        have hxc : x = (list_chapters db).get ⟨i, hi⟩ := by
          rw [← hxj]
          subst hji
          rfl
        exact hxc ▸ hlt
      · have hlt2 : chLt ((list_chapters db).get ⟨j, hj⟩)
            ((list_chapters db).get ⟨i, hi⟩) := by
          apply hstrict
          exact Fin.mk_lt_mk.mpr (by omega)
        rw [hxj] at hlt2
        exact chLt_asymm _ x hlt hlt2
    rw [hempty]
    rfl

/-- C8: for the chapter at position i of the listing order (distinct ids and
slugs, as the schema's primary-key and unique constraints guarantee), the
chapter-detail operation renders the page with "previous" resolved to
position i-1 and "next" to position i+1, each an explicit absent value at
the respective boundary, never an error. -/
theorem chapter_prev_next (db : List Chapter)
    (hid : (db.map (fun c => c.id)).Nodup)
    (hslug : (db.map (fun c => c.slug)).Nodup)
    (i : Nat) (hi : i < (list_chapters db).length) (u : SessionUser) :
    show_chapter db ((list_chapters db).get ⟨i, hi⟩).slug (some u) =
      .page ((list_chapters db).get ⟨i, hi⟩)
        (if h0 : i = 0 then none
         else some ((list_chapters db).get ⟨i - 1, by omega⟩))
        ((list_chapters db)[i + 1]?) := by
  have hcdb : (list_chapters db).get ⟨i, hi⟩ ∈ db :=
    (List.perm_insertionSort chLe db).subset (List.get_mem _ i hi)
  have hfslug : db.find? (fun x => x.slug == ((list_chapters db).get ⟨i, hi⟩).slug) =
      some ((list_chapters db).get ⟨i, hi⟩) :=
    find?_key_of_nodup (fun c => c.slug) db hslug _ hcdb
  unfold show_chapter
  rw [hfslug]
  dsimp only
  rw [if_neg (by simp)]
  rw [prev_at_index db hid i hi, next_at_index db hid i hi]

theorem chapter_prev_next_witness :
    show_chapter [chB, chC, chA] ((list_chapters [chB, chC, chA]).get ⟨1, by decide⟩).slug
        (some ⟨1, "a@b.c"⟩) =
      .page ((list_chapters [chB, chC, chA]).get ⟨1, by decide⟩)
        (if h0 : (1 : Nat) = 0 then none
         else some ((list_chapters [chB, chC, chA]).get ⟨1 - 1, by decide⟩))
        ((list_chapters [chB, chC, chA])[1 + 1]?) :=
  chapter_prev_next [chB, chC, chA] (by decide) (by decide) 1 (by decide) ⟨1, "a@b.c"⟩
